import Mathlib

/-!
Verification development for the continuous multi-channel signal container
(`MultiSignals`) of the colour repository, together with its single-channel
building block (`Signal`).

The repository sources at hand contain the unit-test module
`colour/continuous/tests/test_multi_signal.py` but not the module
`colour/continuous/multi_signals.py` itself, so the container is modelled
from the natural-language specification (sections 3, 4, 6, 7 and 8 of the
spec), faithful to its words.  Floating-point numbers are embedded as exact
rationals; the not-a-number sentinel is embedded as the `none` value of an
option type.  Mutating methods are embedded by explicit state passing: a
method that mutates in place is a function returning the updated container.
-/

namespace Colour

/-- Modelled from the spec: a numeric value as stored in a range array or in
a configuration mapping.  `none` embeds the floating-point not-a-number
sentinel, `some q` embeds an ordinary finite number. -/
abbrev Val := Option ℚ

/-- Modelled from the spec: a value of a keyword-argument mapping entry;
either a method-name string or a numeric value. -/
inductive KV where
  | str (s : String)
  | num (v : Val)
deriving DecidableEq

/-- Modelled from the spec: a keyword-argument mapping (a Python dict of
interpolator or extrapolator configuration), embedded as an association
list from key to value; lookup returns the first binding of a key. -/
abbrev Kwargs := List (String × KV)

/-- Lookup of a key in a keyword-argument mapping. -/
def lookupKw (kw : Kwargs) (k : String) : Option KV :=
  List.lookup k kw

/-- Modelled from the spec: dict equality of two keyword-argument mappings,
key-based as in Python: each key bound on either side must be bound to the
same value on both sides. -/
def kwargsEq (a b : Kwargs) : Bool :=
  (a.all fun p => decide (lookupKw a p.1 = lookupKw b p.1)) &&
  (b.all fun p => decide (lookupKw a p.1 = lookupKw b p.1))

/-- Modelled from the spec: an interpolator class, identified structurally
by its name (the class object used as the `interpolator` attribute). -/
structure InterpClass where
  name : String
deriving DecidableEq

/-- The default kernel-based interpolator class of the spec. -/
def KernelInterpolator : InterpClass := InterpClass.mk ("KernelInterpolator")

/-- An alternate interpolator class. -/
def CubicSplineInterpolator : InterpClass := InterpClass.mk ("CubicSplineInterpolator")

/-- Modelled from the spec: an extrapolator class, identified structurally
by its name.  A behaviourally identical subclass (one overriding nothing)
is a distinct `ExtrapClass` value with a different name; evaluation never
inspects the class, which embeds that such a subclass behaves identically
to its parent. -/
structure ExtrapClass where
  name : String
deriving DecidableEq

/-- The default extrapolator class. -/
def ExtrapolatorCls : ExtrapClass := ExtrapClass.mk ("Extrapolator")

/-- Modelled from the spec: the default extrapolator configuration written
out explicitly, constant extrapolation returning not-a-number on both
sides.  This is the configuration a freshly constructed container carries. -/
def defaultExtrapolatorKwargs : Kwargs :=
  [("method", KV.str ("Constant")), ("left", KV.num none), ("right", KV.num none)]

/-- Modelled from the spec (section 3): a single-channel signal, an ordered
mapping from domain scalar to range scalar.  The invariant maintained by
the container is that `domain` and `range` have equal length and `domain`
keys are unique and ascending. -/
structure Signal where
  domain : List ℚ
  range : List Val
deriving DecidableEq

/-- Insertion of a point into a domain: if the point is already a domain
key the domain is unchanged, otherwise the point is inserted at its sorted
position. -/
def domInsert (d : List ℚ) (x : ℚ) : List ℚ :=
  if x ∈ d then d else List.orderedInsert (· ≤ ·) x d

/-- Modelled from the spec (section 4.1): assign a value at a given domain
point, inserting the point as a new domain key (resorting) when absent, and
updating the range entry in place when present. -/
def Signal.setPoint (s : Signal) (x : ℚ) (y : Val) : Signal :=
  if x ∈ s.domain then
    { s with range := s.range.set (s.domain.findIdx (fun d => d == x)) y }
  else
    { domain := List.orderedInsert (· ≤ ·) x s.domain,
      range := s.range.insertIdx (s.domain.takeWhile (fun d => decide (¬ x ≤ d))).length y }

/-- Modelled from the spec (section 4.1): assign values at an array of
query domain points, point by point; the supplied value function gives the
value assigned at each query point. -/
def Signal.setPoints (s : Signal) (q : List ℚ) (yf : ℚ → Val) : Signal :=
  q.foldl (fun t x => t.setPoint x (yf x)) s

/-- Lift of a binary rational operation to values; the not-a-number
sentinel propagates. -/
def vmap2 (f : ℚ → ℚ → ℚ) : Val → Val → Val
  | some a, some b => some (f a b)
  | _, _ => none

/-- The extrapolation method configured in a keyword-argument mapping; the
default, when the key is absent, is constant extrapolation. -/
def extrapMethod (kw : Kwargs) : String :=
  match lookupKw kw ("method") with
  | some (KV.str s) => s
  | _ => "Constant"

/-- The configured left constant-extrapolation value; defaults to the
not-a-number sentinel. -/
def extrapLeftVal (kw : Kwargs) : Val :=
  match lookupKw kw ("left") with
  | some (KV.num v) => v
  | _ => none

/-- The configured right constant-extrapolation value; defaults to the
not-a-number sentinel. -/
def extrapRightVal (kw : Kwargs) : Val :=
  match lookupKw kw ("right") with
  | some (KV.num v) => v
  | _ => none

/-- The value at `t` of the line through the points `(x0, y0)` and
`(x1, y1)`, used by the linear extrapolation method. -/
def linePoint (x0 x1 : ℚ) (y0 y1 : Val) (t : ℚ) : Val :=
  vmap2 (fun a b => a + (t - x0) * (b - a) / (x1 - x0)) y0 y1

/-- Modelled from the spec (sections 3 and 4.1): in-domain evaluation of a
signal.  At an existing domain key the stored range value is returned; at a
point between two neighbouring keys the pluggable interpolator strategy is
abstracted as piecewise-linear evaluation (no claim settled here depends on
an interpolated value between samples). -/
def interpEval : List ℚ → List Val → ℚ → Val
  | [x], y :: _, t => if t = x then y else none
  | x0 :: x1 :: xs, y0 :: y1 :: ys, t =>
    if t = x0 then y0
    else if t < x1 then linePoint x0 x1 y0 y1 t
    else interpEval (x1 :: xs) (y1 :: ys) t
  | _, _, _ => none

/-- Modelled from the spec (sections 4.1 and 7): evaluate a signal at a
query point.  Inside the domain bounds the interpolator runs; outside them
the extrapolator configured by `ekw` runs: the constant method returns the
configured left or right value (not-a-number by default, hence never an
error), the linear method extends the line through the two boundary
samples. -/
def Signal.evaluate (ekw : Kwargs) (s : Signal) (t : ℚ) : Val :=
  match s.domain, s.range with
  | [], _ => none
  | x :: xs, r =>
    if t < x then
      if extrapMethod ekw = "Linear" then
        match xs, r with
        | x1 :: _, y0 :: y1 :: _ => linePoint x x1 y0 y1 t
        | _, y0 :: _ => y0
        | _, _ => none
      else extrapLeftVal ekw
    else if xs.getLastD x < t then
      if extrapMethod ekw = "Linear" then
        match (x :: xs).reverse, r.reverse with
        | xn :: xm :: _, yn :: ym :: _ => linePoint xn xm yn ym t
        | _, yn :: _ => yn
        | _, _ => none
      else extrapRightVal ekw
    else interpEval (x :: xs) r t

/-- Modelled from the spec (section 3): the multi-channel container, an
ordered mapping from label to owned signal together with the interpolation
and extrapolation configuration shared by the channels. -/
structure MultiSignals where
  signals : List (String × Signal)
  interpolator : InterpClass
  interpolator_kwargs : Kwargs
  extrapolator : ExtrapClass
  extrapolator_kwargs : Kwargs
deriving DecidableEq

/-- The ordered channel labels of a container. -/
def MultiSignals.labels (m : MultiSignals) : List String :=
  m.signals.map Prod.fst

/-- The canonical shared domain of a container: the domain of its first
channel (all channels share it by the container invariant), empty when the
container has no channel. -/
def MultiSignals.domain (m : MultiSignals) : List ℚ :=
  (m.signals.map fun p => p.2.domain).headD []

/-- Modelled from the spec (section 4.4): the length of a container is its
number of domain samples. -/
def MultiSignals.length (m : MultiSignals) : Nat :=
  m.domain.length

/-- The per-channel range columns of a container, in label order. -/
def MultiSignals.columns (m : MultiSignals) : List (List Val) :=
  m.signals.map fun p => p.2.range

/-- One step of column stacking: the list of the heads of all columns. -/
def rowsAux : Nat → List (List Val) → List (List Val)
  | 0, _ => []
  | Nat.succ n, cols => (cols.map fun c => c.headD none) :: rowsAux n (cols.map List.tail)

/-- Modelled from the spec (section 2): the array utility stacking channel
columns into a table of rows (one row per domain sample, one entry per
channel). -/
def tstack (cols : List (List Val)) : List (List Val) :=
  rowsAux (match cols with | [] => 0 | c :: _ => c.length) cols

/-- Modelled from the spec (section 3): the range property of a container,
the table whose rows are domain samples and whose columns are channels. -/
def MultiSignals.rangeTable (m : MultiSignals) : List (List Val) :=
  tstack m.columns

/-- Modelled from the spec (sections 4.3 and 7): scalar indexed access.
Every channel is evaluated at the query point independently and the results
are collected in label order; calling an empty container (no channels) is
an error. -/
def MultiSignals.get (m : MultiSignals) (t : ℚ) : Except String (List Val) :=
  if m.signals.isEmpty then Except.error ("the container has no signal to evaluate")
  else Except.ok (m.signals.map fun p => p.2.evaluate m.extrapolator_kwargs t)

/-- Modelled from the spec (section 4.3): indexed assignment at an array of
query domain points.  Every channel receives the assignment, inserting any
query point absent from its domain; the assigned value is supplied per
channel label and per query point, which covers both the scalar broadcast
(a constant function) and channel-wise values. -/
def MultiSignals.set (m : MultiSignals) (q : List ℚ) (yf : String → ℚ → Val) : MultiSignals :=
  { m with signals := m.signals.map fun p => (p.1, p.2.setPoints q (yf p.1)) }

/-- Modelled from the spec (section 4.4): containment, true exactly when
the value lies within the closed interval from the smallest to the largest
domain key. -/
def MultiSignals.containsValue (m : MultiSignals) (v : ℚ) : Bool :=
  match m.domain with
  | [] => false
  | x :: xs => decide (xs.foldl min x ≤ v) && decide (v ≤ xs.foldl max x)

/-- Modelled from the spec (section 4.4): container equality; domains,
ranges, labels and the full interpolation and extrapolation configuration
are compared structurally. -/
def msEq (a b : MultiSignals) : Bool :=
  decide (a.labels = b.labels) &&
  decide (a.signals.map (fun p => p.2.domain) = b.signals.map (fun p => p.2.domain)) &&
  decide (a.signals.map (fun p => p.2.range) = b.signals.map (fun p => p.2.range)) &&
  decide (a.interpolator = b.interpolator) &&
  kwargsEq a.interpolator_kwargs b.interpolator_kwargs &&
  decide (a.extrapolator = b.extrapolator) &&
  kwargsEq a.extrapolator_kwargs b.extrapolator_kwargs

/-- A Python value a container may be compared against: another container,
or a value of an unrelated type such as a tuple, a string or a number. -/
inductive PyObject where
  | container (m : MultiSignals)
  | pyTuple (arity : Nat)
  | pyStr (s : String)
  | pyNum (v : Val)

/-- Modelled from the spec (section 4.4): equality comparison of a
container against an arbitrary value; a value that is not a container
compares unequal, and the comparison is total (it never raises). -/
def msEqPy (m : MultiSignals) (v : PyObject) : Bool :=
  match v with
  | PyObject.container b => msEq m b
  | _ => false

/-- Modelled from the spec (section 4.4): inequality is the negation of
equality. -/
def msNePy (m : MultiSignals) (v : PyObject) : Bool :=
  !(msEqPy m v)

/-- The arithmetic operations supported by the container. -/
inductive Op where
  | add
  | sub
  | mul
  | div
  | pow
deriving DecidableEq

/-- Rational stand-in for floating-point exponentiation; exact on integer
exponents, which are the only exponents the verified claims evaluate. -/
def qpow (a : ℚ) (b : ℚ) : ℚ :=
  if b.den = 1 then a ^ b.num else 0

/-- The scalar semantics of each arithmetic operation. -/
def applyOp : Op → ℚ → ℚ → ℚ
  | Op.add, a, b => a + b
  | Op.sub, a, b => a - b
  | Op.mul, a, b => a * b
  | Op.div, a, b => a / b
  | Op.pow, a, b => qpow a b

/-- The lift of an arithmetic operation with a scalar operand to a range
value; the not-a-number sentinel propagates. -/
def Val.appOp (op : Op) (k : ℚ) : Val → Val :=
  Option.map fun a => applyOp op a k

/-- Elementwise application of an arithmetic operation with a scalar
operand to the range of one signal; the domain is untouched. -/
def Signal.arithOp (s : Signal) (k : ℚ) (op : Op) : Signal :=
  { s with range := s.range.map (Val.appOp op k) }

/-- Modelled from the spec (section 4.4): `arithmetical_operation` with a
scalar operand applies the operation elementwise to the range of every
channel; domain, labels and interpolation configuration are untouched.
In-place mutation is embedded by state passing, so the returned container
is the updated state for either value of `in_place`. -/
def MultiSignals.arithmetical_operation (m : MultiSignals) (k : ℚ) (op : Op)
    (in_place : Bool) : MultiSignals :=
  match in_place with
  | _ => { m with signals := m.signals.map fun p => (p.1, p.2.arithOp k op) }

/-- Modelled from the spec (section 4.4): the operator overloads for the
five arithmetic operators forward to `arithmetical_operation` with
`in_place` false. -/
def MultiSignals.opScalar (m : MultiSignals) (op : Op) (k : ℚ) : MultiSignals :=
  m.arithmetical_operation k op false

/-- Modelled from the spec (section 3) and the range-property unit test:
assigning the range property from a flat vector whose length matches the
domain length broadcasts that vector to every channel; a mismatched length
is an error. -/
def MultiSignals.setRangeFlat (m : MultiSignals) (v : List Val) : Except String MultiSignals :=
  if v.length = m.domain.length then
    Except.ok { m with signals := m.signals.map fun p => (p.1, { p.2 with range := v }) }
  else
    Except.error ("cannot broadcast the range vector onto the domain")

/-- Modelled from the spec (section 9): the tagged union of input shapes
accepted by construction and unpacking that the verified claims exercise:
absent data, a flat numeric sequence, a two-dimensional table of rows, and
a mapping from domain key to per-channel row. -/
inductive MSData where
  | noData
  | flat (v : List Val)
  | table (rows : List (List Val))
  | mapping (pairs : List (ℚ × List Val))

/-- The default domain of n samples, the integer indices 0 to n - 1. -/
def defaultDomain (n : Nat) : List ℚ :=
  List.map (Nat.cast : Nat → ℚ) (List.range n)

/-- The default labels for n channels, the stringified column indices. -/
def defaultLabels (n : Nat) : List String :=
  (List.range n).map fun j => toString j

/-- Modelled from the spec (section 4.2): when explicit labels collide,
each duplicate is disambiguated by appending a separator and its positional
index; labels that are already unique are kept as given. -/
def disambiguateLabels (ls : List String) : List String :=
  if ls.Nodup then ls
  else ls.enum.map fun p => if ls.count p.2 > 1 then p.2 ++ (" - ") ++ toString p.1 else p.2

/-- Modelled from the spec (section 2): the array utility splitting a table
of rows into its m channel columns. -/
def tsplit (rows : List (List Val)) (m : Nat) : List (List Val) :=
  (List.range m).map fun j => rows.map fun r => r.getD j none

/-- Modelled from the spec (section 4.2): normalize heterogeneous input
into an ordered mapping from label to signal.  Absent data yields an empty
mapping; a flat sequence yields one channel labelled zero; a table yields
one channel per column with stringified column indices as default labels; a
mapping is sorted by key, the keys become the domain and the stacked values
are split channel-wise.  Mismatched domain or label cardinality is a value
error. -/
def multi_signals_unpack_data (data : MSData) (domain : Option (List ℚ))
    (labels : Option (List String)) : Except String (List (String × Signal)) :=
  match data with
  | MSData.noData => Except.ok []
  | MSData.flat v =>
    let dom := match domain with | none => defaultDomain v.length | some d => d
    let ls := match labels with | none => ["0"] | some given => disambiguateLabels given
    if dom.length = v.length ∧ ls.length = 1 then
      Except.ok (ls.zip [Signal.mk dom v])
    else
      Except.error ("domain, range or label cardinality mismatch")
  | MSData.table rows =>
    let m := (rows.headD []).length
    let dom := match domain with | none => defaultDomain rows.length | some d => d
    let ls := match labels with | none => defaultLabels m | some given => disambiguateLabels given
    if dom.length = rows.length ∧ ls.length = m then
      Except.ok (ls.zip ((tsplit rows m).map fun c => Signal.mk dom c))
    else
      Except.error ("domain, range or label cardinality mismatch")
  | MSData.mapping pairs =>
    let sorted := List.insertionSort (fun a b => a.1 ≤ b.1) pairs
    let dom := sorted.map Prod.fst
    let rows := sorted.map Prod.snd
    let m := (rows.headD []).length
    let ls := match labels with | none => defaultLabels m | some given => disambiguateLabels given
    if ls.length = m then
      Except.ok (ls.zip ((tsplit rows m).map fun c => Signal.mk dom c))
    else
      Except.error ("domain, range or label cardinality mismatch")

/-- Modelled from the spec (section 4.2): construction of a container from
heterogeneous input by unpacking; a fresh container carries the default
interpolation configuration and the default extrapolator with its explicit
constant not-a-number keyword arguments. -/
def MultiSignals.make (data : MSData) (domain : Option (List ℚ))
    (labels : Option (List String)) : Except String MultiSignals :=
  (multi_signals_unpack_data data domain labels).map fun sigs =>
    MultiSignals.mk sigs KernelInterpolator [] ExtrapolatorCls defaultExtrapolatorKwargs

/-- Modelled from the spec (sections 6 and 8): the structural serialization
stream, a tree of primitive nodes (naturals, integers, strings and lists)
analogous to a pickle payload. -/
inductive PData where
  | nd (n : Nat)
  | id (i : Int)
  | sd (s : String)
  | ld (xs : List PData)

/-- Encoding of a rational as numerator and denominator nodes. -/
def encodeRat (q : ℚ) : PData :=
  PData.ld [PData.id q.num, PData.nd q.den]

/-- Decoding of a rational node. -/
def decodeRat : PData → Option ℚ
  | PData.ld [PData.id i, PData.nd n] => some ((i : ℚ) / (n : ℚ))
  | _ => none

/-- Encoding of a range value; the not-a-number sentinel is an empty list
node. -/
def encodeVal : Val → PData
  | none => PData.ld []
  | some q => PData.ld [encodeRat q]

/-- Decoding of a range value node. -/
def decodeVal : PData → Option Val
  | PData.ld [] => some none
  | PData.ld [p] =>
    match decodeRat p with
    | some q => some (some q)
    | none => none
  | _ => none

/-- Decoding of a list of nodes, failing when any element fails. -/
def decodeListWith (f : PData → Option α) : List PData → Option (List α)
  | [] => some []
  | p :: ps =>
    match f p, decodeListWith f ps with
    | some a, some ys => some (a :: ys)
    | _, _ => none

/-- Encoding of a keyword-argument value. -/
def encodeKV : KV → PData
  | KV.str s => PData.sd s
  | KV.num v => PData.ld [encodeVal v]

/-- Decoding of a keyword-argument value node. -/
def decodeKV : PData → Option KV
  | PData.sd s => some (KV.str s)
  | PData.ld [p] =>
    match decodeVal p with
    | some v => some (KV.num v)
    | none => none
  | _ => none

/-- Encoding of one keyword-argument binding. -/
def encodeKwPair (p : String × KV) : PData :=
  PData.ld [PData.sd p.1, encodeKV p.2]

/-- Decoding of one keyword-argument binding. -/
def decodeKwPair : PData → Option (String × KV)
  | PData.ld [PData.sd k, p] =>
    match decodeKV p with
    | some v => some (k, v)
    | none => none
  | _ => none

/-- Encoding of one labelled signal: label, domain keys, range values. -/
def encodeChannel (p : String × Signal) : PData :=
  PData.ld [PData.sd p.1, PData.ld (p.2.domain.map encodeRat), PData.ld (p.2.range.map encodeVal)]

/-- Decoding of one labelled signal. -/
def decodeChannel : PData → Option (String × Signal)
  | PData.ld [PData.sd l, PData.ld ds, PData.ld rs] =>
    match decodeListWith decodeRat ds, decodeListWith decodeVal rs with
    | some d, some r => some (l, Signal.mk d r)
    | _, _ => none
  | _ => none

/-- Modelled from the spec (sections 6 and 8): structural serialization of
the entire container, channels and configuration included. -/
def serialize (m : MultiSignals) : PData :=
  PData.ld
    [PData.ld (m.signals.map encodeChannel),
     PData.sd m.interpolator.name,
     PData.ld (m.interpolator_kwargs.map encodeKwPair),
     PData.sd m.extrapolator.name,
     PData.ld (m.extrapolator_kwargs.map encodeKwPair)]

/-- Modelled from the spec (sections 6 and 8): structural deserialization,
the inverse of `serialize`, failing on a malformed stream. -/
def deserialize : PData → Option MultiSignals
  | PData.ld [PData.ld chs, PData.sd ic, PData.ld ikw, PData.sd ec, PData.ld ekw] =>
    match decodeListWith decodeChannel chs, decodeListWith decodeKwPair ikw,
        decodeListWith decodeKwPair ekw with
    | some sigs, some ik, some ek =>
      some (MultiSignals.mk sigs (InterpClass.mk ic) ik (ExtrapClass.mk ec) ek)
    | _, _, _ => none
  | _ => none

/-- The shared domain of the worked example of the spec (section 8): the
integer samples 0 to 9. -/
def dom10 : List ℚ :=
  [0, 1, 2, 3, 4, 5, 6, 7, 8, 9]

/-- First channel of the worked example: the ramp 10 to 100 in steps of
10. -/
def col0 : List Val :=
  [some 10, some 20, some 30, some 40, some 50, some 60, some 70, some 80, some 90, some 100]

/-- Second channel of the worked example: the ramp offset by 10. -/
def col1 : List Val :=
  [some 20, some 30, some 40, some 50, some 60, some 70, some 80, some 90, some 100, some 110]

/-- Third channel of the worked example: the ramp offset by 20. -/
def col2 : List Val :=
  [some 30, some 40, some 50, some 60, some 70, some 80, some 90, some 100, some 110, some 120]

/-- The worked example container of the spec (section 8): domain 0 to 9,
three ramp channels offset by 0, 10 and 20, default configuration. -/
def ms0 : MultiSignals :=
  MultiSignals.mk
    [(("0"), Signal.mk dom10 col0), (("1"), Signal.mk dom10 col1), (("2"), Signal.mk dom10 col2)]
    KernelInterpolator [] ExtrapolatorCls defaultExtrapolatorKwargs

/-- A small two-channel container used as a concrete instance. -/
def ms1 : MultiSignals :=
  MultiSignals.mk
    [(("a"), Signal.mk [0, 1, 2] [some 1, some 2, some 3]),
     (("b"), Signal.mk [0, 1, 2] [some 4, some 5, some 6])]
    KernelInterpolator [] ExtrapolatorCls defaultExtrapolatorKwargs

/-- A small three-channel mapping input used as a concrete instance. -/
def pairsC6 : List (ℚ × List Val) :=
  [(0, [some 1, some 2, some 3]), (1, [some 4, some 5, some 6])]

/-- A small rectangular table input used as a concrete instance. -/
def rowsC5 : List (List Val) :=
  [[some 1, some 2], [some 3, some 4], [some 5, some 6]]

/-! Lemmas about domain insertion and point assignment. -/

theorem Signal.setPoint_domain (s : Signal) (x : ℚ) (y : Val) :
    (s.setPoint x y).domain = domInsert s.domain x := by
  unfold Signal.setPoint domInsert
  split <;> rfl

theorem Signal.setPoints_domain (s : Signal) (q : List ℚ) (yf : ℚ → Val) :
    (s.setPoints q yf).domain = q.foldl domInsert s.domain := by
  induction q generalizing s with
  | nil => rfl
  | cons a q ih =>
    show ((s.setPoint a (yf a)).setPoints q yf).domain = _
    rw [ih, Signal.setPoint_domain, List.foldl_cons]

theorem mem_domInsert {a x : ℚ} (d : List ℚ) : a ∈ domInsert d x ↔ a = x ∨ a ∈ d := by
  unfold domInsert
  split
  · rename_i h
    constructor
    · exact Or.inr
    · rintro (rfl | h2)
      · exact h
      · exact h2
  · rw [(List.perm_orderedInsert _ x d).mem_iff, List.mem_cons]

theorem toFinset_domInsert (d : List ℚ) (x : ℚ) :
    (domInsert d x).toFinset = insert x d.toFinset := by
  unfold domInsert
  split
  · rename_i h
    rw [Finset.insert_eq_self.mpr (List.mem_toFinset.mpr h)]
  · rw [List.toFinset_eq_of_perm _ _ (List.perm_orderedInsert _ x d), List.toFinset_cons]

theorem nodup_domInsert (d : List ℚ) (x : ℚ) (h : d.Nodup) : (domInsert d x).Nodup := by
  unfold domInsert
  split
  · exact h
  · rename_i hx
    exact ((List.perm_orderedInsert _ x d).nodup_iff).mpr (List.nodup_cons.mpr ⟨hx, h⟩)

theorem toFinset_foldl_domInsert (q d : List ℚ) :
    (q.foldl domInsert d).toFinset = d.toFinset ∪ q.toFinset := by
  induction q generalizing d with
  | nil => simp
  | cons a q ih =>
    rw [List.foldl_cons, ih, toFinset_domInsert, List.toFinset_cons, Finset.insert_union,
      Finset.union_insert]

theorem nodup_foldl_domInsert (q d : List ℚ) (h : d.Nodup) : (q.foldl domInsert d).Nodup := by
  induction q generalizing d with
  | nil => exact h
  | cons a q ih => exact ih _ (nodup_domInsert _ _ h)

theorem length_foldl_domInsert (q d : List ℚ) (h : d.Nodup) :
    (q.foldl domInsert d).length = d.length + (q.toFinset \ d.toFinset).card := by
  rw [← List.toFinset_card_of_nodup (nodup_foldl_domInsert q d h), toFinset_foldl_domInsert,
    Finset.union_comm, ← Finset.card_sdiff_add_card, List.toFinset_card_of_nodup h, Nat.add_comm]

/-- C1: after any set call whose query names domain points not already
present, every channel of the container carries the identical new domain
(the old shared domain with the new points inserted, the same list for
every channel, hence the same length, values and order), every query point
is a member of the new shared domain, and the container length grows by
exactly the number of distinct query points that were not already domain
samples. -/
theorem set_shared_domain_invariant (m : MultiSignals) (q : List ℚ)
    (yf : String → ℚ → Val) (d : List ℚ)
    (hne : m.signals ≠ []) (hd : ∀ p ∈ m.signals, p.2.domain = d) (hn : d.Nodup) :
    (∀ p ∈ (m.set q yf).signals, p.2.domain = q.foldl domInsert d) ∧
    (∀ x ∈ q, x ∈ (m.set q yf).domain) ∧
    (m.set q yf).length = m.length + (q.toFinset \ d.toFinset).card := by
  obtain ⟨p0, ps, hms⟩ : ∃ p0 ps, m.signals = p0 :: ps := by
    cases h : m.signals with
    | nil => exact absurd h hne
    | cons a l => exact ⟨a, l, rfl⟩
  have hall : ∀ p ∈ (m.set q yf).signals, p.2.domain = q.foldl domInsert d := by
    intro p hp
    obtain ⟨p1, hp1, rfl⟩ := List.mem_map.mp hp
    show (p1.2.setPoints q (yf p1.1)).domain = _
    rw [Signal.setPoints_domain, hd p1 hp1]
  have hp0m : p0 ∈ m.signals := by
    rw [hms]
    exact List.mem_cons_self _ _
  have hsig : (m.set q yf).signals =
      (p0.1, p0.2.setPoints q (yf p0.1)) :: ps.map (fun p => (p.1, p.2.setPoints q (yf p.1))) := by
    show m.signals.map _ = _
    rw [hms, List.map_cons]
  have hmd : m.domain = d := by
    unfold MultiSignals.domain
    rw [hms, List.map_cons, List.headD_cons, hd p0 hp0m]
  have hdom : (m.set q yf).domain = q.foldl domInsert d := by
    unfold MultiSignals.domain
    rw [hsig, List.map_cons, List.headD_cons, Signal.setPoints_domain, hd p0 hp0m]
  refine ⟨hall, fun x hx => ?_, ?_⟩
  · rw [hdom, ← List.mem_toFinset, toFinset_foldl_domInsert]
    exact Finset.mem_union_right _ (List.mem_toFinset.mpr hx)
  · show (m.set q yf).domain.length = m.domain.length + _
    rw [hdom, hmd, length_foldl_domInsert q d hn]

/-- Witness for C1 at a concrete two-channel container: a set call at the
query points 3/2 (new) and 1 (already present) leaves every channel with
the identical new domain and grows the container length by exactly one. -/
theorem set_shared_domain_invariant_witness :
    (ms1.signals ≠ [] ∧ (∀ p ∈ ms1.signals, p.2.domain = [0, 1, 2]) ∧
      ([0, 1, 2] : List ℚ).Nodup) ∧
    ((∀ p ∈ (ms1.set [3/2, 1] fun _ _ => some 9).signals,
        p.2.domain = [3/2, 1].foldl domInsert [0, 1, 2]) ∧
      (∀ x ∈ ([3/2, 1] : List ℚ), x ∈ (ms1.set [3/2, 1] fun _ _ => some 9).domain) ∧
      (ms1.set [3/2, 1] fun _ _ => some 9).length =
        ms1.length + ((([3/2, 1] : List ℚ).toFinset \ ([0, 1, 2] : List ℚ).toFinset).card)) :=
  ⟨⟨by with_unfolding_all decide, by with_unfolding_all decide, by with_unfolding_all decide⟩,
    set_shared_domain_invariant ms1 [3/2, 1] (fun _ _ => some 9) [0, 1, 2]
      (by with_unfolding_all decide) (by with_unfolding_all decide)
      (by with_unfolding_all decide)⟩

/-! Lemmas about the serialization stream. -/

theorem decodeRat_encodeRat (q : ℚ) : decodeRat (encodeRat q) = some q := by
  simp [encodeRat, decodeRat, Rat.num_div_den]

theorem decodeVal_encodeVal (v : Val) : decodeVal (encodeVal v) = some v := by
  cases v with
  | none => rfl
  | some q => simp [encodeVal, decodeVal, decodeRat_encodeRat]

theorem decodeListWith_encode {α : Type} (f : α → PData) (g : PData → Option α)
    (h : ∀ a, g (f a) = some a) (xs : List α) :
    decodeListWith g (xs.map f) = some xs := by
  induction xs with
  | nil => rfl
  | cons a xs ih => simp [decodeListWith, h, ih]

theorem decodeKV_encodeKV (kv : KV) : decodeKV (encodeKV kv) = some kv := by
  cases kv with
  | str s => rfl
  | num v => simp [encodeKV, decodeKV, decodeVal_encodeVal]

theorem decodeKwPair_encodeKwPair (p : String × KV) :
    decodeKwPair (encodeKwPair p) = some p := by
  simp [encodeKwPair, decodeKwPair, decodeKV_encodeKV]

theorem decodeChannel_encodeChannel (p : String × Signal) :
    decodeChannel (encodeChannel p) = some p := by
  simp [encodeChannel, decodeChannel, decodeListWith_encode _ _ decodeRat_encodeRat,
    decodeListWith_encode _ _ decodeVal_encodeVal]

/-- C2: deserializing the serialization of any constructed container yields
it back exactly, and the container compares equal to itself under the
container equality, so the round-trip yields an equal container. -/
theorem deserialize_serialize (m : MultiSignals) :
    deserialize (serialize m) = some m ∧ msEq m m = true := by
  constructor
  · simp [serialize, deserialize, decodeListWith_encode _ _ decodeChannel_encodeChannel,
      decodeListWith_encode _ _ decodeKwPair_encodeKwPair]
  · simp [msEq, kwargsEq, List.all_eq_true]

/-! Lemmas about column stacking and elementwise operations. -/

theorem headD_map_none (f : Val → Val) (hf : f none = none) (c : List Val) :
    (c.map f).headD none = f (c.headD none) := by
  cases c with
  | nil => simp [hf]
  | cons a c => rfl

theorem tail_map_val (f : Val → Val) (c : List Val) : (c.map f).tail = c.tail.map f := by
  cases c <;> rfl

theorem rowsAux_map (f : Val → Val) (hf : f none = none) (n : Nat) (cols : List (List Val)) :
    rowsAux n (cols.map (List.map f)) = (rowsAux n cols).map (List.map f) := by
  induction n generalizing cols with
  | zero => rfl
  | succ n ih =>
    show (cols.map (List.map f)).map (fun c => c.headD none) ::
        rowsAux n ((cols.map (List.map f)).map List.tail) =
      List.map f (cols.map fun c => c.headD none) ::
        (rowsAux n (cols.map List.tail)).map (List.map f)
    rw [List.map_map, List.map_map, List.map_map]
    congr 1
    · exact List.map_congr_left fun c _ => headD_map_none f hf c
    · have h2 : List.map (List.tail ∘ List.map f) cols = List.map (List.map f ∘ List.tail) cols :=
        List.map_congr_left fun c _ => tail_map_val f c
      rw [h2, ← List.map_map, ih]

theorem tstack_map (f : Val → Val) (hf : f none = none) (cols : List (List Val)) :
    tstack (cols.map (List.map f)) = (tstack cols).map (List.map f) := by
  cases cols with
  | nil => rfl
  | cons c cs =>
    show rowsAux (c.map f).length (((c :: cs)).map (List.map f)) = _
    rw [List.length_map]
    exact rowsAux_map f hf _ _

/-- C3: for every container, scalar and operation among addition,
subtraction, multiplication, division and exponentiation, the operator form
returns a container whose range table is the elementwise application of the
operation to the range table of the original, while the per-channel
domains, the shared domain, the labels and the whole interpolation and
extrapolation configuration are untouched; the in-place form of
`arithmetical_operation` yields the very same updated container (in the
state-passing embedding, mutating and returning the container itself). -/
theorem arithmetical_operation_scalar (m : MultiSignals) (k : ℚ) (op : Op) :
    (m.opScalar op k).rangeTable = m.rangeTable.map (List.map (Val.appOp op k)) ∧
    (m.opScalar op k).signals.map (fun p => p.2.domain) = m.signals.map (fun p => p.2.domain) ∧
    (m.opScalar op k).domain = m.domain ∧
    (m.opScalar op k).labels = m.labels ∧
    (m.opScalar op k).interpolator = m.interpolator ∧
    (m.opScalar op k).interpolator_kwargs = m.interpolator_kwargs ∧
    (m.opScalar op k).extrapolator = m.extrapolator ∧
    (m.opScalar op k).extrapolator_kwargs = m.extrapolator_kwargs ∧
    m.arithmetical_operation k op true = m.opScalar op k := by
  have hcols : (m.opScalar op k).columns = m.columns.map (List.map (Val.appOp op k)) := by
    show (m.signals.map _).map _ = (m.signals.map _).map _
    rw [List.map_map, List.map_map]
    rfl
  have hdoms : (m.opScalar op k).signals.map (fun p => p.2.domain) =
      m.signals.map (fun p => p.2.domain) := by
    show (m.signals.map _).map _ = _
    rw [List.map_map]
    rfl
  refine ⟨?_, hdoms, ?_, ?_, rfl, rfl, rfl, rfl, rfl⟩
  · show tstack (m.opScalar op k).columns = (tstack m.columns).map _
    rw [hcols, tstack_map _ rfl]
  · show ((m.opScalar op k).signals.map fun p => p.2.domain).headD [] = _
    rw [hdoms]
    rfl
  · show (m.signals.map _).map _ = m.signals.map _
    rw [List.map_map]
    rfl

/-! Lemmas about list minima and maxima by folding. -/

theorem foldl_min_le_init (xs : List ℚ) (x : ℚ) : xs.foldl min x ≤ x := by
  induction xs generalizing x with
  | nil => exact le_refl x
  | cons a xs ih => exact le_trans (ih (min x a)) (min_le_left x a)

theorem foldl_min_le (xs : List ℚ) (x a : ℚ) (h : a ∈ x :: xs) : xs.foldl min x ≤ a := by
  induction xs generalizing x with
  | nil =>
    rw [List.mem_singleton.mp h]
    exact le_refl x
  | cons b xs ih =>
    rcases List.mem_cons.mp h with rfl | h2
    · exact le_trans (foldl_min_le_init xs (min a b)) (min_le_left a b)
    · rcases List.mem_cons.mp h2 with rfl | h3
      · exact le_trans (foldl_min_le_init xs (min x a)) (min_le_right x a)
      · exact ih (min x b) (List.mem_cons_of_mem _ h3)

theorem foldl_min_mem (xs : List ℚ) (x : ℚ) : xs.foldl min x ∈ x :: xs := by
  induction xs generalizing x with
  | nil => exact List.mem_cons_self x []
  | cons a xs ih =>
    rcases List.mem_cons.mp (ih (min x a)) with h | h
    · rcases min_choice x a with hc | hc
      · rw [List.foldl_cons, h, hc]
        exact List.mem_cons_self _ _
      · rw [List.foldl_cons, h, hc]
        exact List.mem_cons_of_mem _ (List.mem_cons_self _ _)
    · exact List.mem_cons_of_mem _ (List.mem_cons_of_mem _ h)

theorem le_foldl_max_init (xs : List ℚ) (x : ℚ) : x ≤ xs.foldl max x := by
  induction xs generalizing x with
  | nil => exact le_refl x
  | cons a xs ih => exact le_trans (le_max_left x a) (ih (max x a))

theorem le_foldl_max (xs : List ℚ) (x a : ℚ) (h : a ∈ x :: xs) : a ≤ xs.foldl max x := by
  induction xs generalizing x with
  | nil =>
    rw [List.mem_singleton.mp h]
    exact le_refl x
  | cons b xs ih =>
    rcases List.mem_cons.mp h with rfl | h2
    · exact le_trans (le_max_left a b) (le_foldl_max_init xs (max a b))
    · rcases List.mem_cons.mp h2 with rfl | h3
      · exact le_trans (le_max_right x a) (le_foldl_max_init xs (max x a))
      · exact ih (max x b) (List.mem_cons_of_mem _ h3)

theorem foldl_max_mem (xs : List ℚ) (x : ℚ) : xs.foldl max x ∈ x :: xs := by
  induction xs generalizing x with
  | nil => exact List.mem_cons_self x []
  | cons a xs ih =>
    rcases List.mem_cons.mp (ih (max x a)) with h | h
    · rcases max_choice x a with hc | hc
      · rw [List.foldl_cons, h, hc]
        exact List.mem_cons_self _ _
      · rw [List.foldl_cons, h, hc]
        exact List.mem_cons_of_mem _ (List.mem_cons_self _ _)
    · exact List.mem_cons_of_mem _ (List.mem_cons_of_mem _ h)

/-- C7: for every container with a non-empty domain, a value is contained
exactly when it lies between some pair of domain samples, equivalently
within the closed interval from the smallest to the largest domain key; on
the worked example container with domain 0 to 9, both bounds are contained,
the value one half is contained although it is not a domain sample, and
values strictly outside the bounds are not contained. -/
theorem contains_iff_within_bounds :
    (∀ (m : MultiSignals) (v : ℚ), m.domain ≠ [] →
      (m.containsValue v = true ↔ ∃ lo ∈ m.domain, ∃ hi ∈ m.domain, lo ≤ v ∧ v ≤ hi)) ∧
    ms0.containsValue 0 = true ∧ ms0.containsValue 9 = true ∧
    ms0.containsValue (1/2) = true ∧ ((1/2 : ℚ) ∉ ms0.domain) ∧
    ms0.containsValue 1000 = false ∧ ms0.containsValue (-1) = false := by
  refine ⟨?_, by with_unfolding_all decide, by with_unfolding_all decide,
    by with_unfolding_all decide, by with_unfolding_all decide,
    by with_unfolding_all decide, by with_unfolding_all decide⟩
  intro m v hne
  rcases hx : m.domain with _ | ⟨x, xs⟩
  · exact absurd hx hne
  · simp only [MultiSignals.containsValue, hx, Bool.and_eq_true, decide_eq_true_eq]
    constructor
    · rintro ⟨h1, h2⟩
      exact ⟨xs.foldl min x, foldl_min_mem xs x, xs.foldl max x, foldl_max_mem xs x, h1, h2⟩
    · rintro ⟨lo, hlo, hi, hhi, h1, h2⟩
      exact ⟨le_trans (foldl_min_le xs x lo hlo) h1, le_trans h2 (le_foldl_max xs x hi hhi)⟩

/-- Witness for C7 at the worked example container and the query value one
half: the containment test evaluates to true and the characterization
through bracketing domain samples holds. -/
theorem contains_iff_within_bounds_witness :
    ms0.domain ≠ [] ∧
    (ms0.containsValue (1/2) = true ↔
      ∃ lo ∈ ms0.domain, ∃ hi ∈ ms0.domain, lo ≤ 1/2 ∧ 1/2 ≤ hi) :=
  ⟨by with_unfolding_all decide,
    contains_iff_within_bounds.1 ms0 (1/2) (by with_unfolding_all decide)⟩

/-- C8: comparing a container for equality against any value that is not a
container never raises (the comparison is a total boolean function) and
always reports unequal: equality is false and inequality is true. -/
theorem eq_non_container_false (m : MultiSignals) (v : PyObject)
    (h : ∀ b, v ≠ PyObject.container b) :
    msEqPy m v = false ∧ msNePy m v = true := by
  cases v with
  | container b => exact absurd rfl (h b)
  | pyTuple n => exact ⟨rfl, rfl⟩
  | pyStr s => exact ⟨rfl, rfl⟩
  | pyNum q => exact ⟨rfl, rfl⟩

theorem not_container_pyTuple (n : Nat) (b : MultiSignals) :
    PyObject.pyTuple n ≠ PyObject.container b :=
  fun h => PyObject.noConfusion h

/-- Witness for C8 at the worked example container compared against an
empty tuple. -/
theorem eq_non_container_false_witness :
    (∀ b, PyObject.pyTuple 0 ≠ PyObject.container b) ∧
    (msEqPy ms0 (PyObject.pyTuple 0) = false ∧ msNePy ms0 (PyObject.pyTuple 0) = true) :=
  ⟨not_container_pyTuple 0,
    eq_non_container_false ms0 (PyObject.pyTuple 0) (not_container_pyTuple 0)⟩

/-! A congruence lemma: evaluation depends on the extrapolator keyword
arguments only through the resolved method and constant values. -/

theorem Signal.evaluate_congr (kw kw2 : Kwargs)
    (h1 : extrapMethod kw = extrapMethod kw2)
    (h2 : extrapLeftVal kw = extrapLeftVal kw2)
    (h3 : extrapRightVal kw = extrapRightVal kw2)
    (s : Signal) (t : ℚ) : s.evaluate kw t = s.evaluate kw2 t := by
  rcases s with ⟨d, r⟩
  cases d with
  | nil => rfl
  | cons x xs =>
    simp only [Signal.evaluate]
    rw [h1, h2, h3]

/-- C10: container equality compares the interpolation and extrapolation
configuration structurally, not behaviourally: replacing the extrapolator
class by any other class value (such as a behaviourally identical subclass,
which evaluation never distinguishes) makes the containers unequal although
every query evaluates identically; likewise a container whose extrapolator
keyword arguments spell out the default explicitly is unequal to one
carrying the empty mapping, although every query again evaluates
identically. -/
theorem config_structural_equality (m : MultiSignals) (c : ExtrapClass)
    (hc : c ≠ m.extrapolator) :
    (msEq m { m with extrapolator := c } = false ∧
      ∀ t, MultiSignals.get { m with extrapolator := c } t = m.get t) ∧
    (m.extrapolator_kwargs = defaultExtrapolatorKwargs →
      msEq m { m with extrapolator_kwargs := [] } = false ∧
      ∀ t, MultiSignals.get { m with extrapolator_kwargs := [] } t = m.get t) := by
  refine ⟨⟨?_, fun t => rfl⟩, fun hk => ⟨?_, fun t => ?_⟩⟩
  · have hv : m.extrapolator ≠ c := Ne.symm hc
    simp [msEq, hv]
  · have hkw : kwargsEq defaultExtrapolatorKwargs [] = false := by decide
    simp [msEq, hk, hkw]
  · have he : ∀ p : String × Signal,
        Signal.evaluate ([] : Kwargs) p.2 t = Signal.evaluate m.extrapolator_kwargs p.2 t :=
      fun p => Signal.evaluate_congr [] m.extrapolator_kwargs
        (by rw [hk]; decide) (by rw [hk]; decide) (by rw [hk]; decide) p.2 t
    simp only [MultiSignals.get]
    split
    · rfl
    · exact congrArg Except.ok (List.map_congr_left fun p _ => he p)

/-- Witness for C10 at the worked example container and an extrapolator
subclass value. -/
theorem config_structural_equality_witness :
    (ExtrapClass.mk ("NotExtrapolator") ≠ ms0.extrapolator) ∧
    ((msEq ms0 { ms0 with extrapolator := ExtrapClass.mk ("NotExtrapolator") } = false ∧
      ∀ t, MultiSignals.get { ms0 with extrapolator := ExtrapClass.mk ("NotExtrapolator") } t =
        ms0.get t) ∧
     (ms0.extrapolator_kwargs = defaultExtrapolatorKwargs →
      msEq ms0 { ms0 with extrapolator_kwargs := [] } = false ∧
      ∀ t, MultiSignals.get { ms0 with extrapolator_kwargs := [] } t = ms0.get t)) :=
  ⟨by decide, config_structural_equality ms0 (ExtrapClass.mk ("NotExtrapolator")) (by decide)⟩

/-! Lemmas about domain bounds used by extrapolation. -/

theorem getLastD_mem (xs : List ℚ) (x : ℚ) : xs.getLastD x ∈ x :: xs := by
  cases xs with
  | nil => exact List.mem_cons_self x []
  | cons a l =>
    rw [show (a :: l).getLastD x = (a :: l).getLast (List.cons_ne_nil a l) from rfl]
    exact List.mem_cons_of_mem x (List.getLast_mem _)

theorem head_le_getLastD (x : ℚ) (xs : List ℚ) (hs : (x :: xs).Sorted (· ≤ ·)) :
    x ≤ xs.getLastD x := by
  rcases List.mem_cons.mp (getLastD_mem xs x) with h | h
  · exact le_of_eq h.symm
  · exact (List.sorted_cons.mp hs).1 _ h

theorem map_none_replicate (l : List (String × Signal)) :
    (l.map fun _ => (none : Val)) = List.replicate l.length none := by
  induction l with
  | nil => rfl
  | cons a l ih => simp [List.replicate_succ, ih]

theorem exists_reverse_cons_cons {α : Type} (l : List α) (h : 2 ≤ l.length) :
    ∃ a b rest, l.reverse = a :: b :: rest := by
  cases hr1 : l.reverse with
  | nil =>
    rw [← List.length_reverse l, hr1] at h
    simp at h
  | cons a rest1 =>
    cases hr2 : rest1 with
    | nil =>
      rw [← List.length_reverse l, hr1, hr2] at h
      simp at h
    | cons b rest => exact ⟨a, b, rest, rfl⟩

/-- C4: for a container whose channels share a sorted domain and carry the
default extrapolator configuration, get at a query point outside the domain
bounds (below the smallest or above the largest sample) is not an error: it
returns the not-a-number sentinel for every channel.  With the non-default
linear extrapolator configuration, such queries instead return for every
channel the extrapolated value: below the bounds the line through the first
two samples of that channel, and above the bounds the line through its last
two samples. -/
theorem get_out_of_domain (m : MultiSignals) (t x : ℚ) (xs : List ℚ)
    (hne : m.signals ≠ [])
    (hd : ∀ p ∈ m.signals, p.2.domain = x :: xs)
    (hs : (x :: xs).Sorted (· ≤ ·))
    (hout : t < x ∨ xs.getLastD x < t)
    (hkw : m.extrapolator_kwargs = defaultExtrapolatorKwargs) :
    m.get t = Except.ok (List.replicate m.signals.length none) ∧
    (∀ x1 xs2, xs = x1 :: xs2 →
      (∀ p ∈ m.signals, 2 ≤ p.2.range.length) →
      t < x →
      MultiSignals.get { m with extrapolator_kwargs := [(("method"), KV.str ("Linear"))] } t =
        Except.ok (m.signals.map fun p =>
          linePoint x x1 (p.2.range.headD none) (p.2.range.tail.headD none) t)) ∧
    (∀ x1 xs2, xs = x1 :: xs2 →
      (∀ p ∈ m.signals, 2 ≤ p.2.range.length) →
      xs.getLastD x < t →
      MultiSignals.get { m with extrapolator_kwargs := [(("method"), KV.str ("Linear"))] } t =
        Except.ok (m.signals.map fun p =>
          linePoint ((x :: xs).reverse.headD 0) ((x :: xs).reverse.tail.headD 0)
            (p.2.range.reverse.headD none) (p.2.range.reverse.tail.headD none) t)) := by
  have hnemp : m.signals.isEmpty = false := by
    cases h : m.signals with
    | nil => exact absurd h hne
    | cons a l => rfl
  refine ⟨?_, ?_, ?_⟩
  · have hch : ∀ p ∈ m.signals, Signal.evaluate m.extrapolator_kwargs p.2 t = none := by
      intro p hp
      have hdp := hd p hp
      rcases p with ⟨l, s⟩
      rcases s with ⟨d, r⟩
      simp only at hdp
      subst hdp
      rw [hkw]
      simp only [Signal.evaluate]
      rcases hout with h1 | h2
      · rw [if_pos h1, if_neg (by decide : ¬ extrapMethod defaultExtrapolatorKwargs = "Linear")]
        decide
      · have hnlt : ¬ t < x := not_lt.mpr (le_trans (head_le_getLastD x xs hs) (le_of_lt h2))
        rw [if_neg hnlt, if_pos h2,
          if_neg (by decide : ¬ extrapMethod defaultExtrapolatorKwargs = "Linear")]
        decide
    simp only [MultiSignals.get, hnemp, Bool.false_eq_true, if_false]
    exact congrArg Except.ok
      ((List.map_congr_left fun p hp => hch p hp).trans (map_none_replicate m.signals))
  · intro x1 xs2 hxs hlen2 hlt
    subst hxs
    have hch : ∀ p ∈ m.signals,
        Signal.evaluate [(("method"), KV.str ("Linear"))] p.2 t =
          linePoint x x1 (p.2.range.headD none) (p.2.range.tail.headD none) t := by
      intro p hp
      have hdp := hd p hp
      have hl2 := hlen2 p hp
      rcases p with ⟨l, s⟩
      rcases s with ⟨d, r⟩
      simp only at hdp hl2
      subst hdp
      rcases r with _ | ⟨y0, r2⟩
      · simp at hl2
      rcases r2 with _ | ⟨y1, r3⟩
      · simp at hl2
      simp only [Signal.evaluate]
      rw [if_pos hlt,
        if_pos (by decide : extrapMethod [(("method"), KV.str ("Linear"))] = "Linear")]
      rfl
    simp only [MultiSignals.get, hnemp, Bool.false_eq_true, if_false]
    exact congrArg Except.ok (List.map_congr_left fun p hp => hch p hp)
  · intro x1 xs2 hxs hlen2 hgt
    subst hxs
    have hch : ∀ p ∈ m.signals,
        Signal.evaluate [(("method"), KV.str ("Linear"))] p.2 t =
          linePoint ((x :: x1 :: xs2).reverse.headD 0) ((x :: x1 :: xs2).reverse.tail.headD 0)
            (p.2.range.reverse.headD none) (p.2.range.reverse.tail.headD none) t := by
      intro p hp
      have hdp := hd p hp
      have hl2 := hlen2 p hp
      rcases p with ⟨l, s⟩
      rcases s with ⟨d, r⟩
      simp only at hdp hl2
      subst hdp
      obtain ⟨dn, dm, drest, hdrev⟩ :=
        exists_reverse_cons_cons (x :: x1 :: xs2) (Nat.le_add_left 2 xs2.length)
      obtain ⟨yn, ym, yrest, hyrev⟩ := exists_reverse_cons_cons r hl2
      have hnlt : ¬ t < x :=
        not_lt.mpr (le_trans (head_le_getLastD x (x1 :: xs2) hs) (le_of_lt hgt))
      simp only [Signal.evaluate]
      rw [if_neg hnlt, if_pos hgt,
        if_pos (by decide : extrapMethod [(("method"), KV.str ("Linear"))] = "Linear")]
      rw [hdrev, hyrev]
      rfl
    simp only [MultiSignals.get, hnemp, Bool.false_eq_true, if_false]
    exact congrArg Except.ok (List.map_congr_left fun p hp => hch p hp)

/-- Witness for C4 at the worked example container and the out-of-domain
query points minus one thousand and one thousand; the container holds the
concrete extrapolated values minus 9990, 9980 and 9970 below the bounds and
10010, 10020 and 10030 above the bounds under the linear method. -/
theorem get_out_of_domain_witness :
    (ms0.signals ≠ [] ∧
      (∀ p ∈ ms0.signals, p.2.domain = 0 :: [1, 2, 3, 4, 5, 6, 7, 8, 9]) ∧
      ((0 : ℚ) :: [1, 2, 3, 4, 5, 6, 7, 8, 9]).Sorted (· ≤ ·) ∧
      ((-1000 : ℚ) < 0 ∨ ([1, 2, 3, 4, 5, 6, 7, 8, 9] : List ℚ).getLastD 0 < -1000) ∧
      ((1000 : ℚ) < 0 ∨ ([1, 2, 3, 4, 5, 6, 7, 8, 9] : List ℚ).getLastD 0 < 1000) ∧
      ms0.extrapolator_kwargs = defaultExtrapolatorKwargs) ∧
    (ms0.get (-1000) = Except.ok (List.replicate ms0.signals.length none) ∧
      (∀ x1 xs2, ([1, 2, 3, 4, 5, 6, 7, 8, 9] : List ℚ) = x1 :: xs2 →
        (∀ p ∈ ms0.signals, 2 ≤ p.2.range.length) →
        (-1000 : ℚ) < 0 →
        MultiSignals.get { ms0 with extrapolator_kwargs := [(("method"), KV.str ("Linear"))] }
            (-1000) =
          Except.ok (ms0.signals.map fun p =>
            linePoint 0 x1 (p.2.range.headD none) (p.2.range.tail.headD none) (-1000))) ∧
      (∀ x1 xs2, ([1, 2, 3, 4, 5, 6, 7, 8, 9] : List ℚ) = x1 :: xs2 →
        (∀ p ∈ ms0.signals, 2 ≤ p.2.range.length) →
        ([1, 2, 3, 4, 5, 6, 7, 8, 9] : List ℚ).getLastD 0 < -1000 →
        MultiSignals.get { ms0 with extrapolator_kwargs := [(("method"), KV.str ("Linear"))] }
            (-1000) =
          Except.ok (ms0.signals.map fun p =>
            linePoint (((0 : ℚ) :: [1, 2, 3, 4, 5, 6, 7, 8, 9]).reverse.headD 0)
              (((0 : ℚ) :: [1, 2, 3, 4, 5, 6, 7, 8, 9]).reverse.tail.headD 0)
              (p.2.range.reverse.headD none) (p.2.range.reverse.tail.headD none) (-1000)))) ∧
    (ms0.get 1000 = Except.ok (List.replicate ms0.signals.length none) ∧
      (∀ x1 xs2, ([1, 2, 3, 4, 5, 6, 7, 8, 9] : List ℚ) = x1 :: xs2 →
        (∀ p ∈ ms0.signals, 2 ≤ p.2.range.length) →
        (1000 : ℚ) < 0 →
        MultiSignals.get { ms0 with extrapolator_kwargs := [(("method"), KV.str ("Linear"))] }
            1000 =
          Except.ok (ms0.signals.map fun p =>
            linePoint 0 x1 (p.2.range.headD none) (p.2.range.tail.headD none) 1000)) ∧
      (∀ x1 xs2, ([1, 2, 3, 4, 5, 6, 7, 8, 9] : List ℚ) = x1 :: xs2 →
        (∀ p ∈ ms0.signals, 2 ≤ p.2.range.length) →
        ([1, 2, 3, 4, 5, 6, 7, 8, 9] : List ℚ).getLastD 0 < 1000 →
        MultiSignals.get { ms0 with extrapolator_kwargs := [(("method"), KV.str ("Linear"))] }
            1000 =
          Except.ok (ms0.signals.map fun p =>
            linePoint (((0 : ℚ) :: [1, 2, 3, 4, 5, 6, 7, 8, 9]).reverse.headD 0)
              (((0 : ℚ) :: [1, 2, 3, 4, 5, 6, 7, 8, 9]).reverse.tail.headD 0)
              (p.2.range.reverse.headD none) (p.2.range.reverse.tail.headD none) 1000))) ∧
    MultiSignals.get { ms0 with extrapolator_kwargs := [(("method"), KV.str ("Linear"))] }
        (-1000) =
      Except.ok [some (-9990), some (-9980), some (-9970)] ∧
    MultiSignals.get { ms0 with extrapolator_kwargs := [(("method"), KV.str ("Linear"))] }
        1000 =
      Except.ok [some 10010, some 10020, some 10030] :=
  ⟨⟨by with_unfolding_all decide, by with_unfolding_all decide, by with_unfolding_all decide,
      by with_unfolding_all decide, by with_unfolding_all decide, by with_unfolding_all decide⟩,
    get_out_of_domain ms0 (-1000) 0 [1, 2, 3, 4, 5, 6, 7, 8, 9]
      (by with_unfolding_all decide) (by with_unfolding_all decide)
      (by with_unfolding_all decide) (by with_unfolding_all decide)
      (by with_unfolding_all decide),
    get_out_of_domain ms0 1000 0 [1, 2, 3, 4, 5, 6, 7, 8, 9]
      (by with_unfolding_all decide) (by with_unfolding_all decide)
      (by with_unfolding_all decide) (by with_unfolding_all decide)
      (by with_unfolding_all decide),
    by with_unfolding_all rfl,
    by with_unfolding_all rfl⟩

/-! Lemmas about default domains, default labels and column splitting. -/

theorem defaultDomain_length (n : Nat) : (defaultDomain n).length = n := by
  unfold defaultDomain
  rw [List.length_map, List.length_range]

theorem defaultLabels_length (n : Nat) : (defaultLabels n).length = n := by
  unfold defaultLabels
  rw [List.length_map, List.length_range]

theorem map_const_eq_replicate {α β : Type} (l : List α) (b : β) :
    (l.map fun _ => b) = List.replicate l.length b := by
  induction l with
  | nil => rfl
  | cons a l ih => simp [List.replicate_succ, ih]

/-- C5: constructing from a flat numeric sequence of length N with no
explicit domain yields the container with the single channel labelled zero,
the default domain of integer indices 0 to N - 1 and the input itself as
the range of that channel; constructing from an N-by-M table yields M
channels whose labels are the stringified column indices, the default
domain of length N, and, at every column position, the channel carrying the
corresponding column of the table. -/
theorem construction_equivalence :
    (∀ v : List Val,
      MultiSignals.make (MSData.flat v) none none =
        Except.ok (MultiSignals.mk [(("0"), Signal.mk (defaultDomain v.length) v)]
          KernelInterpolator [] ExtrapolatorCls defaultExtrapolatorKwargs)) ∧
    (∀ (rows : List (List Val)) (M : Nat), (rows.headD []).length = M → 0 < M →
      ∃ c, MultiSignals.make (MSData.table rows) none none = Except.ok c ∧
        c.labels = defaultLabels M ∧
        c.domain = defaultDomain rows.length ∧
        c.signals.length = M ∧
        c.interpolator = KernelInterpolator ∧
        c.extrapolator = ExtrapolatorCls ∧
        c.extrapolator_kwargs = defaultExtrapolatorKwargs ∧
        (∀ j, j < M →
          c.signals.getD j (("", Signal.mk [] [])) =
            (toString j, Signal.mk (defaultDomain rows.length)
              (rows.map fun r => r.getD j none)))) := by
  constructor
  · intro v
    simp only [MultiSignals.make, multi_signals_unpack_data]
    split
    · rfl
    · rename_i h
      exact absurd ⟨defaultDomain_length v.length, rfl⟩ h
  · intro rows M hM hM0
    subst hM
    have hlsl : (defaultLabels (rows.headD []).length).length = (rows.headD []).length :=
      defaultLabels_length _
    have htsl : (tsplit rows (rows.headD []).length).length = (rows.headD []).length := by
      simp [tsplit]
    have hysl : ((tsplit rows (rows.headD []).length).map fun c =>
        Signal.mk (defaultDomain rows.length) c).length = (rows.headD []).length := by
      simp [tsplit]
    refine ⟨MultiSignals.mk
        ((defaultLabels (rows.headD []).length).zip
          ((tsplit rows (rows.headD []).length).map fun c =>
            Signal.mk (defaultDomain rows.length) c))
        KernelInterpolator [] ExtrapolatorCls defaultExtrapolatorKwargs,
      ?_, ?_, ?_, ?_, rfl, rfl, rfl, ?_⟩
    · simp only [MultiSignals.make, multi_signals_unpack_data]
      split
      · rfl
      · rename_i h
        exact absurd ⟨defaultDomain_length rows.length, defaultLabels_length _⟩ h
    · show (_ : List (String × Signal)).map Prod.fst = _
      exact List.map_fst_zip _ _ (le_of_eq (hlsl.trans hysl.symm))
    · show ((_ : List (String × Signal)).map fun p => p.2.domain).headD [] = _
      have h1 : (((defaultLabels (rows.headD []).length).zip
            ((tsplit rows (rows.headD []).length).map fun c =>
              Signal.mk (defaultDomain rows.length) c)).map fun p => p.2.domain) =
          ((tsplit rows (rows.headD []).length).map fun c =>
            Signal.mk (defaultDomain rows.length) c).map fun s => s.domain := by
        rw [show (fun p : String × Signal => p.2.domain) =
            (fun s : Signal => s.domain) ∘ Prod.snd from rfl, ← List.map_map,
          List.map_snd_zip _ _ (le_of_eq (hysl.trans hlsl.symm))]
      have h2 : (((tsplit rows (rows.headD []).length).map fun c =>
            Signal.mk (defaultDomain rows.length) c).map fun s => s.domain) =
          List.replicate (rows.headD []).length (defaultDomain rows.length) := by
        rw [List.map_map]
        rw [show ((fun s : Signal => s.domain) ∘ fun c =>
            Signal.mk (defaultDomain rows.length) c) =
          fun _ : List Val => defaultDomain rows.length from rfl]
        rw [map_const_eq_replicate, htsl]
      rw [h1, h2]
      obtain ⟨k, hk⟩ : ∃ k, (rows.headD []).length = k + 1 :=
        ⟨_, (Nat.succ_pred_eq_of_pos hM0).symm⟩
      rw [hk]
      rfl
    · show (_ : List (String × Signal)).length = _
      rw [List.length_zip, hlsl, hysl, Nat.min_self]
    · intro j hj
      have hzl : ((defaultLabels (rows.headD []).length).zip
          ((tsplit rows (rows.headD []).length).map fun c =>
            Signal.mk (defaultDomain rows.length) c)).length = (rows.headD []).length := by
        rw [List.length_zip, hlsl, hysl, Nat.min_self]
      rw [List.getD_eq_getElem?_getD, List.getElem?_eq_getElem (by rw [hzl]; exact hj),
        Option.getD_some, List.getElem_zip]
      simp [defaultLabels, tsplit]

/-- Witness for C5 at a concrete three-by-two table. -/
theorem construction_equivalence_witness :
    ((rowsC5.headD []).length = 2 ∧ 0 < 2) ∧
    (∃ c, MultiSignals.make (MSData.table rowsC5) none none = Except.ok c ∧
      c.labels = defaultLabels 2 ∧
      c.domain = defaultDomain rowsC5.length ∧
      c.signals.length = 2 ∧
      c.interpolator = KernelInterpolator ∧
      c.extrapolator = ExtrapolatorCls ∧
      c.extrapolator_kwargs = defaultExtrapolatorKwargs ∧
      (∀ j, j < 2 →
        c.signals.getD j (("", Signal.mk [] [])) =
          (toString j, Signal.mk (defaultDomain rowsC5.length)
            (rowsC5.map fun r => r.getD j none)))) ∧
    MultiSignals.make (MSData.flat [some 4, some 5]) none none =
      Except.ok (MultiSignals.mk [(("0"), Signal.mk (defaultDomain 2) [some 4, some 5])]
        KernelInterpolator [] ExtrapolatorCls defaultExtrapolatorKwargs) :=
  ⟨⟨by decide, by decide⟩,
    construction_equivalence.2 rowsC5 2 (by decide) (by decide),
    construction_equivalence.1 [some 4, some 5]⟩

/-! Lemma about label disambiguation. -/

theorem disambiguateLabels_length (ls : List String) :
    (disambiguateLabels ls).length = ls.length := by
  unfold disambiguateLabels
  split
  · rfl
  · simp [List.enum_length]

/-- C6: supplying explicit labels that collide to unpacking is not an
error: with any mapping input of matching cardinality the unpacking
succeeds, and on a concrete three-channel input with the colliding labels
zero, zero, zero the resulting label sequence is zero dash zero, zero dash
one, zero dash two, which is duplicate-free. -/
theorem duplicate_labels_disambiguated :
    (∀ (pairs : List (ℚ × List Val)) (ls : List String) (M : Nat),
      pairs ≠ [] → (∀ p ∈ pairs, p.2.length = M) → ls.length = M →
      (multi_signals_unpack_data (MSData.mapping pairs) none (some ls)).isOk = true) ∧
    ((multi_signals_unpack_data (MSData.mapping pairsC6) none
        (some [("0"), ("0"), ("0")])).map (fun sigs => sigs.map Prod.fst) =
      Except.ok [("0 - 0"), ("0 - 1"), ("0 - 2")]) ∧
    ([("0 - 0"), ("0 - 1"), ("0 - 2")] : List String).Nodup := by
  refine ⟨?_, by with_unfolding_all rfl, by decide⟩
  intro pairs ls M hne hrect hlen
  have hperm := List.perm_insertionSort (fun a b : ℚ × List Val => a.1 ≤ b.1) pairs
  obtain ⟨p0, ps, hsort⟩ : ∃ p0 ps,
      List.insertionSort (fun a b : ℚ × List Val => a.1 ≤ b.1) pairs = p0 :: ps := by
    cases h : List.insertionSort (fun a b : ℚ × List Val => a.1 ≤ b.1) pairs with
    | nil => exact absurd ((h ▸ hperm).symm.eq_nil) hne
    | cons a l => exact ⟨a, l, rfl⟩
  have hp0 : p0 ∈ pairs := hperm.mem_iff.mp (hsort ▸ List.mem_cons_self p0 ps)
  have hhead : (((List.insertionSort (fun a b : ℚ × List Val => a.1 ≤ b.1) pairs).map
      Prod.snd).headD []).length = M := by
    rw [hsort, List.map_cons, List.headD_cons]
    exact hrect p0 hp0
  simp only [multi_signals_unpack_data]
  split
  · rfl
  · rename_i h
    exact absurd (by rw [disambiguateLabels_length, hlen, hhead]) h

/-- Witness for C6 at the concrete three-channel mapping input with the
colliding explicit labels. -/
theorem duplicate_labels_disambiguated_witness :
    (pairsC6 ≠ [] ∧ (∀ p ∈ pairsC6, p.2.length = 3) ∧
      ([("0"), ("0"), ("0")] : List String).length = 3) ∧
    (multi_signals_unpack_data (MSData.mapping pairsC6) none
      (some [("0"), ("0"), ("0")])).isOk = true :=
  ⟨⟨by decide, by decide, by decide⟩,
    duplicate_labels_disambiguated.1 pairsC6 [("0"), ("0"), ("0")] 3
      (by decide) (by decide) (by decide)⟩

/-! Lemma about stacking replicated columns. -/

theorem rowsAux_replicate (M : Nat) (v : List Val) :
    rowsAux v.length (List.replicate M v) = v.map fun a => List.replicate M a := by
  induction v with
  | nil => rfl
  | cons a v ih =>
    show (List.replicate M (a :: v)).map (fun c => c.headD none) ::
        rowsAux v.length ((List.replicate M (a :: v)).map List.tail) =
      List.replicate M a :: v.map fun b => List.replicate M b
    rw [List.map_replicate, List.map_replicate]
    rw [show (List.replicate M ((a :: v).headD none)) = List.replicate M a from rfl]
    rw [show (List.replicate M (a :: v).tail) = List.replicate M v from rfl]
    rw [ih]

/-- C9: assigning the range property from a flat vector whose length equals
the domain length broadcasts the vector to every channel: the assignment
succeeds, every channel column equals the vector, the per-channel domains,
the shared domain and the labels are unchanged, and the range table is the
table whose every row is the corresponding vector entry repeated once per
channel (so all channel columns coincide with the vector). -/
theorem range_flat_broadcast (m : MultiSignals) (v : List Val)
    (hne : m.signals ≠ []) (hlen : v.length = m.domain.length) :
    ∃ c, m.setRangeFlat v = Except.ok c ∧
      c.columns = List.replicate m.signals.length v ∧
      c.signals.map (fun p => p.2.domain) = m.signals.map (fun p => p.2.domain) ∧
      c.domain = m.domain ∧
      c.labels = m.labels ∧
      c.rangeTable = v.map fun a => List.replicate m.signals.length a := by
  have hcols : ({ m with signals := m.signals.map fun p =>
        (p.1, { p.2 with range := v }) } : MultiSignals).columns =
      List.replicate m.signals.length v := by
    show (m.signals.map _).map _ = _
    rw [List.map_map]
    rw [show ((fun p : String × Signal => p.2.range) ∘ fun p : String × Signal =>
        (p.1, { p.2 with range := v })) = fun _ => v from rfl]
    exact map_const_eq_replicate _ _
  obtain ⟨k, hk⟩ : ∃ k, m.signals.length = k + 1 := by
    cases h : m.signals with
    | nil => exact absurd h hne
    | cons a l => exact ⟨l.length, by simp [h]⟩
  refine ⟨{ m with signals := m.signals.map fun p => (p.1, { p.2 with range := v }) },
    ?_, hcols, ?_, ?_, ?_, ?_⟩
  · unfold MultiSignals.setRangeFlat
    rw [if_pos hlen]
  · show (m.signals.map _).map _ = _
    rw [List.map_map]
    rfl
  · show ((m.signals.map _).map _).headD [] = _
    rw [List.map_map]
    rfl
  · show (m.signals.map _).map Prod.fst = _
    rw [List.map_map]
    rfl
  · show tstack ({ m with signals := m.signals.map fun p =>
        (p.1, { p.2 with range := v }) } : MultiSignals).columns = _
    rw [hcols, hk]
    show rowsAux v.length (List.replicate (k + 1) v) = _
    exact rowsAux_replicate (k + 1) v

/-- Witness for C9 at the concrete two-channel container and a vector of
length three. -/
theorem range_flat_broadcast_witness :
    (ms1.signals ≠ [] ∧ ([some 7, some 8, some 9] : List Val).length = ms1.domain.length) ∧
    (∃ c, ms1.setRangeFlat [some 7, some 8, some 9] = Except.ok c ∧
      c.columns = List.replicate ms1.signals.length [some 7, some 8, some 9] ∧
      c.signals.map (fun p => p.2.domain) = ms1.signals.map (fun p => p.2.domain) ∧
      c.domain = ms1.domain ∧
      c.labels = ms1.labels ∧
      c.rangeTable = ([some 7, some 8, some 9] : List Val).map fun a =>
        List.replicate ms1.signals.length a) :=
  ⟨⟨by decide, by decide⟩,
    range_flat_broadcast ms1 [some 7, some 8, some 9] (by decide) (by decide)⟩

end Colour
